import Mathlib

set_option autoImplicit false

/-!
Shallow embedding of the macro recording / editing / hotkey-dispatch subsystem
of the Edge_Optimizer_V2 repository, together with proofs about it.

Sources embedded:
- crates/core/src/macro_config.rs   (data model, validation, config ops)
- crates/core/src/input_recorder.rs (recorder stop/optimize pass)
- crates/core/src/gui/macro_editor.rs (editor state machine)
- crates/macro/src/hotkey_manager.rs (dispatch loop, registration rebuild)
- crates/macro/src/executor.rs      (repeat-policy resolution)

Modelling conventions: Rust u32/u64 millisecond counts are modelled as Nat
(the source's debug profile panics on overflow rather than wrapping, so for
every input on which the source returns, the Nat value agrees); i32 screen
coordinates are modelled as Int with the i32 range enforced at the parse
boundary, exactly where the source enforces it. Rust String is modelled as
Lean String; `str::len` (a UTF-8 byte count in Rust) is modelled as
`String.utf8ByteSize`. Field and function names follow the source, except
that snake_case names ending in "macro" are written in camelCase.
-/

namespace EdgeOptimizer

/-! ## Data model — crates/core/src/macro_config.rs -/

/-- Mouse button types for click actions (macro_config.rs, `MouseButton`). -/
inductive MouseButton
  | Left
  | Right
  | Middle
deriving DecidableEq, Repr

/-- Individual action within a macro sequence (macro_config.rs, `MacroAction`). -/
inductive MacroAction
  | KeyPress (key : String) (delay_ms : Nat)
  | KeyRelease (key : String) (delay_ms : Nat)
  | MouseClick (button : MouseButton) (press : Bool)
  | MouseMove (x : Int) (y : Int)
  | Delay (ms : Nat)
deriving DecidableEq, Repr

/-- Whether an action is a `Delay` entry. -/
def MacroAction.isDelay : MacroAction → Bool
  | .Delay _ => true
  | _ => false

/-- Hotkey combination to trigger a macro (macro_config.rs, `MacroShortcut`). -/
structure MacroShortcut where
  ctrl : Bool
  alt : Bool
  shift : Bool
  win : Bool
  key : String
deriving DecidableEq, Repr

/-- The all-false, empty-key shortcut (macro_config.rs, `MacroShortcut::default`). -/
def MacroShortcut.new : MacroShortcut :=
  { ctrl := false, alt := false, shift := false, win := false, key := "" }

/-- Check if a shortcut is valid: at least one modifier and a non-empty key
(macro_config.rs lines 122-127, `MacroShortcut::is_valid`). -/
def MacroShortcut.is_valid (s : MacroShortcut) : Bool :=
  let has_modifier := s.ctrl || s.alt || s.shift || s.win
  let has_key := !s.key.isEmpty
  has_modifier && has_key

/-- How the macro should cycle/repeat (macro_config.rs, `CycleMode`). -/
inductive CycleMode
  | Once
  | Count (times : Nat)
  | UntilKeyPressed (key : String)
deriving DecidableEq, Repr

/-- A complete macro definition (macro_config.rs, `MacroDefinition`). -/
structure MacroDefinition where
  name : String
  enabled : Bool
  actions : List MacroAction
  shortcut : Option MacroShortcut
  cycle_mode : CycleMode
deriving DecidableEq, Repr

/-- Create a new empty macro with the given name
(macro_config.rs lines 200-208, `MacroDefinition::new`). -/
def MacroDefinition.new (name : String) : MacroDefinition :=
  { name := name
    enabled := true
    actions := []
    shortcut := none
    cycle_mode := CycleMode.Once }

/-- Validate the macro definition (macro_config.rs lines 211-227,
`MacroDefinition::validate`). Note that `self.name.len()` in Rust counts
UTF-8 bytes, hence `utf8ByteSize` here. -/
def MacroDefinition.validate (m : MacroDefinition) : Except String Unit :=
  if m.name.isEmpty then
    Except.error "Macro name cannot be empty"
  else if m.name.utf8ByteSize > 50 then
    Except.error "Macro name must be 50 characters or less"
  else if m.actions.isEmpty then
    Except.error "Macro must have at least one action"
  else
    match m.shortcut with
    | some shortcut =>
        if !shortcut.is_valid then
          Except.error "Shortcut must have at least one modifier and a key"
        else
          Except.ok ()
    | none => Except.ok ()

/-- Configuration for all macros in a profile (macro_config.rs, `MacroConfig`). -/
structure MacroConfig where
  macros : List MacroDefinition
deriving DecidableEq, Repr

/-- Remove a macro by index, returning the removed macro and the new
configuration (macro_config.rs lines 248-255, `MacroConfig::remove_macro`;
`Vec::remove` shifts the remaining elements left). -/
def MacroConfig.removeMacro (c : MacroConfig) (index : Nat) :
    Option MacroDefinition × MacroConfig :=
  if h : index < c.macros.length then
    (some (c.macros.get ⟨index, h⟩), ⟨c.macros.eraseIdx index⟩)
  else
    (none, c)

/-! ## Recording session — crates/core/src/input_recorder.rs -/

/-- The accumulator loop of `InputRecorder::optimize_actions`
(input_recorder.rs lines 386-413): `pending` is the running `pending_delay`
sum; a `Delay` entry is folded into `pending`; any other action first flushes
`pending` (kept only when above the 50ms noise floor), resets it to zero and
is then emitted; a final flush happens at the end of the list. -/
def optimizeGo (pending : Nat) : List MacroAction → List MacroAction
  | [] => if pending > 50 then [MacroAction.Delay pending] else []
  | a :: rest =>
      match a with
      | MacroAction.Delay ms => optimizeGo (pending + ms) rest
      | other =>
          (if pending > 50 then [MacroAction.Delay pending] else [])
            ++ other :: optimizeGo 0 rest

/-- Optimize recorded actions by merging consecutive small delays
(input_recorder.rs lines 386-413, `InputRecorder::optimize_actions`). -/
def optimize_actions (actions : List MacroAction) : List MacroAction :=
  optimizeGo 0 actions

/-- Sum of the leading run of consecutive `Delay` actions. -/
def delayRunSum : List MacroAction → Nat
  | MacroAction.Delay ms :: rest => ms + delayRunSum rest
  | _ => 0

/-- Drop the leading run of consecutive `Delay` actions. -/
def delayRunDrop : List MacroAction → List MacroAction
  | MacroAction.Delay _ :: rest => delayRunDrop rest
  | l => l

/-- The coalescing pass as the specification words it: each maximal run of
consecutive `Delay` actions is summed into a single `Delay`, which is dropped
entirely when the sum is at most the 50ms noise floor; non-`Delay` actions
are kept in order. Stated separately from `optimize_actions` so the source's
accumulator loop can be proved equal to it. -/
def coalesceSpec : List MacroAction → List MacroAction
  | [] => []
  | MacroAction.Delay ms :: rest =>
      let total := ms + delayRunSum rest
      if total > 50 then MacroAction.Delay total :: coalesceSpec (delayRunDrop rest)
      else coalesceSpec (delayRunDrop rest)
  | a :: rest => a :: coalesceSpec rest
termination_by l => l.length
decreasing_by
  · have key : ∀ l : List MacroAction, (delayRunDrop l).length ≤ l.length := by
      intro l
      induction l with
      | nil => simp [delayRunDrop]
      | cons a t ih =>
          cases a with
          | Delay ms =>
              calc (delayRunDrop (MacroAction.Delay ms :: t)).length
                  = (delayRunDrop t).length := by simp [delayRunDrop]
                _ ≤ t.length := ih
                _ ≤ (MacroAction.Delay ms :: t).length := by simp
          | KeyPress k d => simp [delayRunDrop]
          | KeyRelease k d => simp [delayRunDrop]
          | MouseClick b p => simp [delayRunDrop]
          | MouseMove x y => simp [delayRunDrop]
    exact Nat.lt_succ_of_le (key rest)
  · simp

/-- No two adjacent entries of the list are both `Delay` actions. -/
def noTwoDelays : List MacroAction → Bool
  | a :: b :: rest => (!(a.isDelay && b.isDelay)) && noTwoDelays (b :: rest)
  | _ => true

/-- A `Delay` entry is above the 50ms noise floor (other actions pass). -/
def delayOver50 : MacroAction → Bool
  | MacroAction.Delay ms => decide (ms > 50)
  | _ => true

/-- The recorder's externally observable state (input_recorder.rs,
`InputRecorder`): the `is_recording` flag, the capture channel's receiver end
with its pending actions (`None` once taken down), whether a stop-signal
sender is held, and whether the listener thread holds an installed keyboard
hook. -/
structure InputRecorder where
  is_recording : Bool
  receiver : Option (List MacroAction)
  stop_signal : Bool
  hook_installed : Bool
deriving DecidableEq, Repr

/-- Create a new input recorder, not started (input_recorder.rs lines 224-231,
`InputRecorder::new`). -/
def InputRecorder.new : InputRecorder :=
  { is_recording := false, receiver := none, stop_signal := false, hook_installed := false }

/-- Start recording (input_recorder.rs lines 235-330,
`InputRecorder::start_recording`): a no-op when already recording; otherwise
a fresh channel (modelled with the actions it will carry) and stop signal are
set up and the listener thread installs the hook. -/
def InputRecorder.start_recording (r : InputRecorder) (captured : List MacroAction) :
    InputRecorder :=
  if r.is_recording then r
  else
    { is_recording := true, receiver := some captured, stop_signal := true,
      hook_installed := true }

/-- Stop recording and return the collected actions (input_recorder.rs lines
339-367, `InputRecorder::stop_recording`): clears `is_recording`, signals the
listener thread to stop (which removes the hook, when a stop sender is still
held), drains every pending action from the receiver, drops both channel
ends, and runs the optimize pass over the drained actions. -/
def InputRecorder.stop_recording (r : InputRecorder) :
    InputRecorder × List MacroAction :=
  let hook_after := if r.stop_signal then false else r.hook_installed
  let drained :=
    match r.receiver with
    | some pending => pending
    | none => []
  ({ is_recording := false, receiver := none, stop_signal := false,
     hook_installed := hook_after },
   optimize_actions drained)

/-! ## Hotkey dispatch — crates/macro/src/hotkey_manager.rs -/

/-- The hotkey key codes of the `global-hotkey` crate reachable from
`string_to_code` (hotkey_manager.rs lines 36-91). -/
inductive Code
  | KeyA | KeyB | KeyC | KeyD | KeyE | KeyF | KeyG | KeyH | KeyI | KeyJ
  | KeyK | KeyL | KeyM | KeyN | KeyO | KeyP | KeyQ | KeyR | KeyS | KeyT
  | KeyU | KeyV | KeyW | KeyX | KeyY | KeyZ
  | Digit0 | Digit1 | Digit2 | Digit3 | Digit4 | Digit5 | Digit6 | Digit7
  | Digit8 | Digit9
  | F1 | F2 | F3 | F4 | F5 | F6 | F7 | F8 | F9 | F10 | F11 | F12
deriving DecidableEq, Repr

/-- Modifier flags of a registered hotkey (the `global-hotkey` crate's
`Modifiers` bitflags, decoded as four booleans). -/
structure Modifiers where
  control : Bool
  alt : Bool
  shift : Bool
  meta : Bool
deriving DecidableEq, Repr

/-- Convert macro modifier flags to hotkey modifiers (hotkey_manager.rs lines
18-33, `to_hotkey_modifiers`). -/
def to_hotkey_modifiers (ctrl alt shift win : Bool) : Modifiers :=
  { control := ctrl, alt := alt, shift := shift, meta := win }

/-- Uppercase a string character by character (`str::to_uppercase`, for the
ASCII key names this subsystem compares against). -/
def rustToUppercase (s : String) : String :=
  ⟨s.data.map Char.toUpper⟩

/-- Convert a key string to a hotkey code (hotkey_manager.rs lines 36-91,
`string_to_code`): uppercase the name, then A-Z, 0-9 and F1-F12 resolve and
every other name yields `None`. -/
def string_to_code (key : String) : Option Code :=
  match rustToUppercase key with
  | "A" => some Code.KeyA
  | "B" => some Code.KeyB
  | "C" => some Code.KeyC
  | "D" => some Code.KeyD
  | "E" => some Code.KeyE
  | "F" => some Code.KeyF
  | "G" => some Code.KeyG
  | "H" => some Code.KeyH
  | "I" => some Code.KeyI
  | "J" => some Code.KeyJ
  | "K" => some Code.KeyK
  | "L" => some Code.KeyL
  | "M" => some Code.KeyM
  | "N" => some Code.KeyN
  | "O" => some Code.KeyO
  | "P" => some Code.KeyP
  | "Q" => some Code.KeyQ
  | "R" => some Code.KeyR
  | "S" => some Code.KeyS
  | "T" => some Code.KeyT
  | "U" => some Code.KeyU
  | "V" => some Code.KeyV
  | "W" => some Code.KeyW
  | "X" => some Code.KeyX
  | "Y" => some Code.KeyY
  | "Z" => some Code.KeyZ
  | "0" => some Code.Digit0
  | "1" => some Code.Digit1
  | "2" => some Code.Digit2
  | "3" => some Code.Digit3
  | "4" => some Code.Digit4
  | "5" => some Code.Digit5
  | "6" => some Code.Digit6
  | "7" => some Code.Digit7
  | "8" => some Code.Digit8
  | "9" => some Code.Digit9
  | "F1" => some Code.F1
  | "F2" => some Code.F2
  | "F3" => some Code.F3
  | "F4" => some Code.F4
  | "F5" => some Code.F5
  | "F6" => some Code.F6
  | "F7" => some Code.F7
  | "F8" => some Code.F8
  | "F9" => some Code.F9
  | "F10" => some Code.F10
  | "F11" => some Code.F11
  | "F12" => some Code.F12
  | _ => none

/-- A registered system hotkey: its modifiers and key code. The OS-assigned
registration identifier (`hotkey.id()` in the source, a hash of exactly these
two fields) is modelled by the value itself. -/
structure HotKey where
  mods : Modifiers
  code : Code
deriving DecidableEq, Repr

/-- The registration decision for one macro during a registration rebuild
(hotkey_manager.rs lines 179-212): a disabled macro is skipped, a macro with
no shortcut is skipped, a shortcut whose key does not resolve through
`string_to_code` is skipped; otherwise the hotkey is registered and
`(registration id -> macro name)` is recorded. -/
def rebuildEntry (m : MacroDefinition) : Option (HotKey × String) :=
  if !m.enabled then none
  else
    match m.shortcut with
    | some shortcut =>
        match string_to_code shortcut.key with
        | some code =>
            some ({ mods := to_hotkey_modifiers shortcut.ctrl shortcut.alt
                              shortcut.shift shortcut.win,
                    code := code },
                  m.name)
        | none => none
    | none => none

/-- The full registration rebuild (hotkey_manager.rs lines 167-213): the old
registrations are cleared and the new table is built from the configured
macros in order. -/
def rebuildRegistrations (macros : List MacroDefinition) : List (HotKey × String) :=
  macros.filterMap rebuildEntry

/-- Application state shared across the macro process's threads
(crates/macro/src/main.rs lines 26-33, `MacroAppState`). -/
structure MacroAppState where
  config : MacroConfig
  enabled : Bool
  executing : Bool
deriving DecidableEq, Repr

/-- One iteration of the hotkey dispatch loop's event handling
(hotkey_manager.rs lines 112-156): an optional received trigger event is
looked up in the `hotkey id -> macro name` table; execution proceeds only
when the loop is enabled and not already executing, and only for a configured
macro of that name that is enabled; around the executor call the `executing`
flag is raised and then cleared again whether the call returned `Ok` or
`Err`. `execResult` stands for `MacroExecutor::execute`; the returned list
holds the names of the macros passed to it during this iteration. -/
def dispatchStep (hotkey_map : List (Nat × String))
    (execResult : MacroDefinition → Except String Unit)
    (s : MacroAppState) (event : Option Nat) : MacroAppState × List String :=
  match event with
  | none => (s, [])
  | some id =>
      match hotkey_map.lookup id with
      | none => (s, [])
      | some macroName =>
          let should_execute := s.enabled && !s.executing
          if should_execute then
            match s.config.macros.find? (fun m => m.name == macroName && m.enabled) with
            | some macroDef =>
                let s1 := { s with executing := true }
                let _result := execResult macroDef
                let s2 := { s1 with executing := false }
                (s2, [macroDef.name])
            | none => (s, [])
          else (s, [])

/-! ## Macro executor — crates/macro/src/executor.rs -/

/-- The sequence of passes `MacroExecutor::execute` makes over the action
list (executor.rs lines 28-51): `Once` runs it once, `Count(times)` runs it
`times` times, and `UntilKeyPressed` — per the source's own comment, "For
now, execute once" — also runs it exactly once, with no key watching. -/
def executeTrace (macroDef : MacroDefinition) : List (List MacroAction) :=
  match macroDef.cycle_mode with
  | CycleMode.Once => [macroDef.actions]
  | CycleMode.Count times => List.replicate times macroDef.actions
  | CycleMode.UntilKeyPressed _stop_key => [macroDef.actions]

/-! ## Macro editor state machine — crates/core/src/gui/macro_editor.rs -/

/-- State for the right-click context menu (macro_editor.rs, `ContextMenuType`). -/
inductive ContextMenuType
  | None
  | MacroList (macro_index : Nat)
  | KeysList (action_index : Nat)
deriving DecidableEq, Repr

/-- State for the Insert Event dropdown (macro_editor.rs, `InsertEventMenu`). -/
inductive InsertEventMenu
  | Closed
  | Open
  | InsertPrevious
  | InsertAfter
  | InsertXY (x : String) (y : String)
  | InsertDelay (ms : String)
deriving DecidableEq, Repr

/-- Messages for macro editor interactions (macro_editor.rs, `MacroMessage`). -/
inductive MacroMessage
  | SelectMacro (index : Nat)
  | NewMacro
  | RenameMacro (name : String)
  | DeleteMacro
  | ToggleMacroEnabled (enabled : Bool)
  | StartRecording
  | StopRecording
  | RecordedAction (action : MacroAction)
  | SelectAction (index : Nat)
  | DeleteAction
  | ChangeActionParameter (param : String)
  | OpenInsertMenu
  | CloseInsertMenu
  | InsertMousePrevious (button : MouseButton) (is_press : Bool)
  | InsertMouseAfter (button : MouseButton) (is_press : Bool)
  | InsertXY (x : Int) (y : Int)
  | InsertDelay (ms : Nat)
  | InsertXYInputX (x : String)
  | InsertXYInputY (y : String)
  | InsertDelayInput (ms : String)
  | ConfirmInsertXY
  | ConfirmInsertDelay
  | ShowContextMenu (menu_type : ContextMenuType)
  | HideContextMenu
  | ContextMenuRename
  | ContextMenuDelete
  | ContextMenuChangeParam
  | ToggleCtrl (enabled : Bool)
  | ToggleAlt (enabled : Bool)
  | ToggleShift (enabled : Bool)
  | ToggleWin (enabled : Bool)
  | ShortcutKeyChanged (key : String)
  | SetCycleMode (mode : CycleMode)
  | CycleCountChanged (count : String)
  | CycleUntilKeyChanged (key : String)
  | DismissRecordingWarning
deriving DecidableEq, Repr

/-- State for the macro editor (macro_editor.rs, `MacroEditorState`); field
names follow the source, in camelCase. -/
structure MacroEditorState where
  macros : List MacroDefinition
  selectedMacro : Option Nat
  selectedAction : Option Nat
  isRecording : Bool
  insertMenu : InsertEventMenu
  contextMenu : ContextMenuType
  editName : String
  editCycleCount : String
  editCycleKey : String
  insertX : String
  insertY : String
  insertDelayMs : String
  editShortcutKey : String
  showRecordingWarning : Bool
deriving DecidableEq, Repr

/-- The editor state's default value (macro_editor.rs lines 125-144,
`impl Default for MacroEditorState`). -/
def MacroEditorState.defaultState : MacroEditorState :=
  { macros := []
    selectedMacro := none
    selectedAction := none
    isRecording := false
    insertMenu := InsertEventMenu.Closed
    contextMenu := ContextMenuType.None
    editName := ""
    editCycleCount := "1"
    editCycleKey := ""
    insertX := "0"
    insertY := "0"
    insertDelayMs := "100"
    editShortcutKey := ""
    showRecordingWarning := false }

/-- Insert an element at an index of a list, shifting the tail right
(`Vec::insert`; the source only calls it at indices within bounds, where
`Vec::insert` does not panic). -/
def listInsertIdx {α : Type} : List α → Nat → α → List α
  | l, 0, a => a :: l
  | [], _ + 1, a => [a]
  | b :: t, n + 1, a => b :: listInsertIdx t n a

/-- Accumulate a non-empty run of decimal digits into a number; any other
character fails the parse. -/
def parseDigitsGo (acc : Nat) : List Char → Option Nat
  | [] => some acc
  | c :: rest =>
      if c.isDigit then parseDigitsGo (acc * 10 + (c.toNat - 48)) rest
      else none

/-- Parse an unsigned decimal numeral, rejecting the empty string. -/
def parseDigits (chars : List Char) : Option Nat :=
  match chars with
  | [] => none
  | _ => parseDigitsGo 0 chars

/-- Parse a Rust `u64` from a string (`str::parse::<u64>`): an optional `+`
sign, then decimal digits, rejecting values at or above 2^64. -/
def parseU64 (s : String) : Option Nat :=
  let digits :=
    match s.data with
    | '+' :: rest => rest
    | chars => chars
  match parseDigits digits with
  | some n => if n < 2 ^ 64 then some n else none
  | none => none

/-- Parse a Rust `u32` from a string (`str::parse::<u32>`). -/
def parseU32 (s : String) : Option Nat :=
  let digits :=
    match s.data with
    | '+' :: rest => rest
    | chars => chars
  match parseDigits digits with
  | some n => if n < 2 ^ 32 then some n else none
  | none => none

/-- Parse a Rust `i32` from a string (`str::parse::<i32>`): an optional sign,
then decimal digits, rejecting values outside the i32 range. -/
def parseI32 (s : String) : Option Int :=
  match s.data with
  | '+' :: rest =>
      match parseDigits rest with
      | some n => if (n : Int) < 2 ^ 31 then some (n : Int) else none
      | none => none
  | '-' :: rest =>
      match parseDigits rest with
      | some n => if (n : Int) ≤ 2 ^ 31 then some (-(n : Int)) else none
      | none => none
  | chars =>
      match parseDigits chars with
      | some n => if (n : Int) < 2 ^ 31 then some (n : Int) else none
      | none => none

/-- Apply `f` to the currently selected macro, when the selection is in
bounds (macro_editor.rs lines 161-163, `current_macro_mut`, as used by the
`if let Some(m) = self.current_macro_mut()` blocks of `update`). -/
def updateCurrentMacro (s : MacroEditorState) (f : MacroDefinition → MacroDefinition) :
    MacroEditorState :=
  match s.selectedMacro with
  | some i =>
      match s.macros.get? i with
      | some m => { s with macros := s.macros.set i (f m) }
      | none => s
  | none => s

/-- The `DeleteMacro` operation (macro_editor.rs lines 220-232): remove the
selected macro when its index is in bounds and clamp the macro selection
toward zero, clearing it when the list became empty. -/
def deleteMacroOp (s : MacroEditorState) : MacroEditorState :=
  match s.selectedMacro with
  | some index =>
      if index < s.macros.length then
        let macros1 := s.macros.eraseIdx index
        { s with macros := macros1
                 selectedMacro :=
                   if macros1.isEmpty then none
                   else some (min (index - 1) (macros1.length - 1))
                 selectedAction := none }
      else s
  | none => s

/-- The `DeleteAction` operation (macro_editor.rs lines 274-287): remove the
selected action of the selected macro when both are in bounds and clamp the
action selection toward zero, clearing it when the macro has no actions
left. -/
def deleteActionOp (s : MacroEditorState) : MacroEditorState :=
  match s.selectedAction with
  | some action_idx =>
      match s.selectedMacro with
      | some i =>
          match s.macros.get? i with
          | some m =>
              if action_idx < m.actions.length then
                let actions1 := m.actions.eraseIdx action_idx
                { s with macros := s.macros.set i { m with actions := actions1 }
                         selectedAction :=
                           if actions1.isEmpty then none
                           else some (min (action_idx - 1) (actions1.length - 1)) }
              else s
          | none => s
      | none => s
  | none => s

/-- Handle a macro editor message (macro_editor.rs lines 166-472,
`MacroEditorState::update`). -/
def update (s : MacroEditorState) : MacroMessage → MacroEditorState
  | MacroMessage.SelectMacro index =>
      if s.isRecording then { s with showRecordingWarning := true }
      else
        let s1 := { s with selectedMacro := some index, selectedAction := none }
        match s.macros.get? index with
        | some m =>
            let s2 := { s1 with
              editName := m.name
              editShortcutKey :=
                match m.shortcut with
                | some shortcut => shortcut.key
                | none => "" }
            match m.cycle_mode with
            | CycleMode.Once => { s2 with editCycleCount := "1" }
            | CycleMode.Count n => { s2 with editCycleCount := toString n }
            | CycleMode.UntilKeyPressed key => { s2 with editCycleKey := key }
        | none => s1
  | MacroMessage.NewMacro =>
      if s.isRecording then { s with showRecordingWarning := true }
      else
        let name := "Macro " ++ toString (s.macros.length + 1)
        let macros1 := s.macros ++ [MacroDefinition.new name]
        { s with macros := macros1
                 selectedMacro := some (macros1.length - 1)
                 selectedAction := none
                 editName := name }
  | MacroMessage.RenameMacro name =>
      updateCurrentMacro { s with editName := name } (fun m => { m with name := name })
  | MacroMessage.DeleteMacro => deleteMacroOp s
  | MacroMessage.ToggleMacroEnabled enabled =>
      updateCurrentMacro s (fun m => { m with enabled := enabled })
  | MacroMessage.StartRecording =>
      let s1 :=
        match s.selectedMacro with
        | none =>
            let name := "Macro " ++ toString (s.macros.length + 1)
            let macros1 := s.macros ++ [MacroDefinition.new name]
            { s with macros := macros1
                     selectedMacro := some (macros1.length - 1)
                     editName := name }
        | some _ => updateCurrentMacro s (fun m => { m with actions := [] })
      { s1 with selectedAction := none, isRecording := true }
  | MacroMessage.StopRecording => { s with isRecording := false }
  | MacroMessage.RecordedAction action =>
      if s.isRecording then
        updateCurrentMacro s (fun m => { m with actions := m.actions ++ [action] })
      else s
  | MacroMessage.SelectAction index => { s with selectedAction := some index }
  | MacroMessage.DeleteAction => deleteActionOp s
  | MacroMessage.ChangeActionParameter _param => s
  | MacroMessage.OpenInsertMenu => { s with insertMenu := InsertEventMenu.Open }
  | MacroMessage.CloseInsertMenu => { s with insertMenu := InsertEventMenu.Closed }
  | MacroMessage.InsertMousePrevious button is_press =>
      let s1 :=
        match s.selectedAction with
        | some action_idx =>
            updateCurrentMacro s (fun m =>
              let actions1 := listInsertIdx m.actions action_idx
                (MacroAction.MouseClick button is_press)
              { m with actions := actions1 })
        | none => s
      { s1 with insertMenu := InsertEventMenu.Closed }
  | MacroMessage.InsertMouseAfter button is_press =>
      let s1 :=
        match s.selectedAction with
        | some action_idx =>
            updateCurrentMacro s (fun m =>
              let insert_at := min (action_idx + 1) m.actions.length
              let actions1 := listInsertIdx m.actions insert_at
                (MacroAction.MouseClick button is_press)
              { m with actions := actions1 })
        | none =>
            updateCurrentMacro s (fun m =>
              { m with actions := m.actions ++ [MacroAction.MouseClick button is_press] })
      { s1 with insertMenu := InsertEventMenu.Closed }
  | MacroMessage.InsertXYInputX x => { s with insertX := x }
  | MacroMessage.InsertXYInputY y => { s with insertY := y }
  | MacroMessage.ConfirmInsertXY =>
      let x : Int := (parseI32 s.insertX).getD 0
      let y : Int := (parseI32 s.insertY).getD 0
      let s1 := updateCurrentMacro s (fun m =>
        { m with actions := m.actions ++ [MacroAction.MouseMove x y] })
      { s1 with insertMenu := InsertEventMenu.Closed }
  | MacroMessage.InsertXY x y =>
      let s1 := updateCurrentMacro s (fun m =>
        { m with actions := m.actions ++ [MacroAction.MouseMove x y] })
      { s1 with insertMenu := InsertEventMenu.Closed }
  | MacroMessage.InsertDelayInput ms => { s with insertDelayMs := ms }
  | MacroMessage.ConfirmInsertDelay =>
      let ms := (parseU64 s.insertDelayMs).getD 100
      let s1 := updateCurrentMacro s (fun m =>
        { m with actions := m.actions ++ [MacroAction.Delay ms] })
      { s1 with insertMenu := InsertEventMenu.Closed }
  | MacroMessage.InsertDelay ms =>
      let s1 := updateCurrentMacro s (fun m =>
        { m with actions := m.actions ++ [MacroAction.Delay ms] })
      { s1 with insertMenu := InsertEventMenu.Closed }
  | MacroMessage.ShowContextMenu menu_type => { s with contextMenu := menu_type }
  | MacroMessage.HideContextMenu => { s with contextMenu := ContextMenuType.None }
  | MacroMessage.ContextMenuRename => { s with contextMenu := ContextMenuType.None }
  | MacroMessage.ContextMenuDelete =>
      let s1 :=
        match s.contextMenu with
        | ContextMenuType.MacroList _ => deleteMacroOp s
        | ContextMenuType.KeysList _ => deleteActionOp s
        | ContextMenuType.None => s
      { s1 with contextMenu := ContextMenuType.None }
  | MacroMessage.ContextMenuChangeParam => { s with contextMenu := ContextMenuType.None }
  | MacroMessage.ToggleCtrl enabled =>
      updateCurrentMacro s (fun m =>
        { m with shortcut := some { (m.shortcut.getD MacroShortcut.new) with ctrl := enabled } })
  | MacroMessage.ToggleAlt enabled =>
      updateCurrentMacro s (fun m =>
        { m with shortcut := some { (m.shortcut.getD MacroShortcut.new) with alt := enabled } })
  | MacroMessage.ToggleShift enabled =>
      updateCurrentMacro s (fun m =>
        { m with shortcut := some { (m.shortcut.getD MacroShortcut.new) with shift := enabled } })
  | MacroMessage.ToggleWin enabled =>
      updateCurrentMacro s (fun m =>
        { m with shortcut := some { (m.shortcut.getD MacroShortcut.new) with win := enabled } })
  | MacroMessage.ShortcutKeyChanged key =>
      updateCurrentMacro { s with editShortcutKey := key } (fun m =>
        { m with shortcut := some { (m.shortcut.getD MacroShortcut.new) with key := rustToUppercase key } })
  | MacroMessage.SetCycleMode mode =>
      updateCurrentMacro s (fun m => { m with cycle_mode := mode })
  | MacroMessage.CycleCountChanged count =>
      let s1 := { s with editCycleCount := count }
      match parseU32 count with
      | some n => updateCurrentMacro s1 (fun m => { m with cycle_mode := CycleMode.Count n })
      | none => s1
  | MacroMessage.CycleUntilKeyChanged key =>
      updateCurrentMacro { s with editCycleKey := key } (fun m =>
        { m with cycle_mode := CycleMode.UntilKeyPressed (rustToUppercase key) })
  | MacroMessage.DismissRecordingWarning => { s with showRecordingWarning := false }

/-! ## Concrete fixtures used by the closed theorems below -/

/-- The "Burst" macro of the spec's scenario section, with the
until-key-pressed repeat policy. -/
def burstMacro : MacroDefinition :=
  { name := "Burst"
    enabled := true
    actions := [MacroAction.KeyPress "A" 0, MacroAction.Delay 20,
                MacroAction.KeyRelease "A" 0]
    shortcut := none
    cycle_mode := CycleMode.UntilKeyPressed "X" }

/-- A shortcut with no modifier set but a resolvable key. -/
def noModShortcut : MacroShortcut :=
  { ctrl := false, alt := false, shift := false, win := false, key := "A" }

/-- An enabled macro carrying the modifier-less shortcut. -/
def noModsMacro : MacroDefinition :=
  { name := "NoMods"
    enabled := true
    actions := [MacroAction.Delay 100]
    shortcut := some noModShortcut
    cycle_mode := CycleMode.Once }

/-- A 26-character name of two-byte characters: 52 UTF-8 bytes. -/
def wideName : String := "éééééééééééééééééééééééééé"

/-- A macro whose name has at most 50 characters but more than 50 UTF-8
bytes, with a non-empty action list and no shortcut. -/
def wideNameMacro : MacroDefinition :=
  { name := wideName
    enabled := true
    actions := [MacroAction.Delay 100]
    shortcut := none
    cycle_mode := CycleMode.Once }

/-- An editor state fixture: the given macros with the given macro and action
selection, every other field at its default. -/
def editorWith (macros : List MacroDefinition) (sm sa : Option Nat) :
    MacroEditorState :=
  { MacroEditorState.defaultState with
      macros := macros, selectedMacro := sm, selectedAction := sa }

/-- An editor state with one two-action macro selected and its first action
selected. -/
def stInsert : MacroEditorState :=
  editorWith
    [{ MacroDefinition.new "M" with
        actions := [MacroAction.KeyPress "A" 0, MacroAction.KeyRelease "A" 0] }]
    (some 0) (some 0)

/-- An editor state with one three-action macro selected and its middle
action selected. -/
def stDelete3 : MacroEditorState :=
  editorWith
    [{ MacroDefinition.new "M" with
        actions := [MacroAction.KeyPress "A" 0, MacroAction.Delay 100,
                    MacroAction.KeyRelease "A" 0] }]
    (some 0) (some 1)

/-- An editor state with one single-action macro selected and that action
selected. -/
def stDelete1 : MacroEditorState :=
  editorWith [{ MacroDefinition.new "M" with actions := [MacroAction.Delay 100] }]
    (some 0) (some 0)

/-- An editor state in which a recording is in progress. -/
def stRecording : MacroEditorState :=
  { stInsert with isRecording := true }

/-- A one-macro configuration for the dispatch fixtures. -/
def cfgM : MacroConfig :=
  ⟨[{ MacroDefinition.new "M" with
       actions := [MacroAction.KeyPress "A" 0, MacroAction.KeyRelease "A" 0] }]⟩

/-- A hotkey table mapping registration id 1 to the macro "M". -/
def hmapM : List (Nat × String) := [(1, "M")]

/-- An executor stub whose every call fails, exercising the `Err` path. -/
def execFail : MacroDefinition → Except String Unit :=
  fun _ => Except.error "boom"

/-- Dispatch-loop state with an execution already in progress. -/
def busyState : MacroAppState :=
  { config := cfgM, enabled := true, executing := true }

/-- Dispatch-loop state at rest. -/
def idleState : MacroAppState :=
  { config := cfgM, enabled := true, executing := false }

/-! ## Helper lemmas -/

theorem get?_some_lt {α : Type} :
    ∀ (l : List α) (k : Nat) (a : α), l.get? k = some a → k < l.length := by
  intro l
  induction l with
  | nil => intro k a h; simp [List.get?] at h
  | cons b t ih =>
      intro k a h
      cases k with
      | zero => simp
      | succ k => exact Nat.succ_lt_succ (ih k a h)

theorem get?_set_self {α : Type} :
    ∀ (l : List α) (k : Nat) (x : α), k < l.length → (l.set k x).get? k = some x := by
  intro l
  induction l with
  | nil => intro k x h; simp at h
  | cons b t ih =>
      intro k x h
      cases k with
      | zero => rfl
      | succ k => exact ih k x (Nat.lt_of_succ_lt_succ h)

theorem updateCurrentMacro_macros (s : MacroEditorState)
    (f : MacroDefinition → MacroDefinition) (k : Nat) (m : MacroDefinition)
    (hk : s.selectedMacro = some k) (hm : s.macros.get? k = some m) :
    (updateCurrentMacro s f).macros = s.macros.set k (f m) := by
  unfold updateCurrentMacro
  simp only [hk, hm]

/-! ## The claims -/

/-- C2: for a macro whose repeat policy is `UntilKeyPressed`, the source's
`execute` makes exactly one pass over the action sequence and returns — it
does not keep re-running the sequence until the key is observed pressed.
Evaluated here at the concrete "Burst" macro with stop key "X": the trace of
passes is a single pass. -/
theorem untilKeyPressed_one_pass :
    executeTrace burstMacro = [burstMacro.actions]
      ∧ (executeTrace burstMacro).length = 1 :=
  ⟨rfl, rfl⟩

/-- C3 (counterexample): an enabled macro whose shortcut has no modifier set
at all — hence invalid under `MacroShortcut::is_valid` — but whose key "A"
resolves through `string_to_code`, is nevertheless registered by the
registration rebuild. -/
theorem registration_skips_validity_cex :
    MacroShortcut.is_valid noModShortcut = false
      ∧ (rebuildEntry noModsMacro).isSome = true := by
  exact ⟨by decide, by decide⟩

/-- C3 (amended): during a registration rebuild a macro is registered, with
its name recorded against the registration id, exactly when it is enabled,
has a shortcut present, and the shortcut's key name resolves to a known
hardware code; shortcut validity (the presence of a modifier) is not
checked. -/
theorem registration_condition (m : MacroDefinition) :
    ((rebuildEntry m).isSome = true ↔
        (m.enabled = true
          ∧ ∃ sc, m.shortcut = some sc ∧ (string_to_code sc.key).isSome = true))
      ∧ (∀ e : HotKey × String, rebuildEntry m = some e → e.2 = m.name) := by
  unfold rebuildEntry
  rcases hsc : m.shortcut with _ | sc
  · cases he : m.enabled <;> simp [he, hsc]
  · cases he : m.enabled <;> cases hc : string_to_code sc.key <;> simp [he, hsc, hc]

/-- C5 (counterexample): a macro whose name has 26 characters (so at most 50
characters), a non-empty action list and no shortcut, for which `validate`
nevertheless fails — the source's length check counts UTF-8 bytes, and this
name occupies 52 bytes. -/
theorem validate_byte_length_cex :
    wideNameMacro.name.isEmpty = false
      ∧ wideNameMacro.name.length ≤ 50
      ∧ wideNameMacro.actions ≠ []
      ∧ wideNameMacro.shortcut = none
      ∧ MacroDefinition.validate wideNameMacro ≠ Except.ok () := by
  refine ⟨rfl, by decide, by decide, rfl, ?_⟩
  intro h
  have he : MacroDefinition.validate wideNameMacro
      = Except.error "Macro name must be 50 characters or less" := rfl
  exact Except.noConfusion (he.symm.trans h)

/-- C5 (amended): `validate` succeeds iff the name is non-empty and occupies
at most 50 UTF-8 bytes, the action list is non-empty, and the shortcut is
either absent or has at least one modifier set and a non-empty key. -/
theorem validate_iff_bytes (m : MacroDefinition) :
    MacroDefinition.validate m = Except.ok () ↔
      (m.name.isEmpty = false ∧ m.name.utf8ByteSize ≤ 50 ∧ m.actions ≠ []
        ∧ (m.shortcut = none ∨ ∃ sc, m.shortcut = some sc ∧ sc.is_valid = true)) := by
  unfold MacroDefinition.validate
  rcases hsc : m.shortcut with _ | sc
  · by_cases h1 : m.name.isEmpty <;>
      by_cases h2 : m.name.utf8ByteSize > 50 <;>
      by_cases h3 : m.actions.isEmpty <;>
      simp_all [List.isEmpty_iff, Nat.not_lt, Nat.lt_iff_add_one_le]
    all_goals (split <;> simp)
  · by_cases h1 : m.name.isEmpty <;>
      by_cases h2 : m.name.utf8ByteSize > 50 <;>
      by_cases h3 : m.actions.isEmpty <;>
      cases hv : sc.is_valid <;>
      simp_all [List.isEmpty_iff, Nat.not_lt, Nat.lt_iff_add_one_le]
    all_goals (split <;> simp)

/-- C8: stopping twice in a row returns an empty action list from the second
call, and the second call leaves the recorder — the hook state included —
exactly as the first call left it, so it never reinstalls the capture hook. -/
theorem stop_recording_idempotent (r : InputRecorder) :
    (InputRecorder.stop_recording (InputRecorder.stop_recording r).1).2 = []
      ∧ (InputRecorder.stop_recording (InputRecorder.stop_recording r).1).1
          = (InputRecorder.stop_recording r).1 := by
  exact ⟨rfl, rfl⟩

/-- C9: while a recording is in progress, the `NewMacro` command only raises
the recording-warning flag; the macro list, the selections and every other
field are left unchanged. -/
theorem newMacro_blocked_while_recording (s : MacroEditorState)
    (h : s.isRecording = true) :
    update s MacroMessage.NewMacro = { s with showRecordingWarning := true } := by
  unfold update
  rw [h]
  simp

/-- C9 (witness): the blocked `NewMacro` at a concrete recording state. -/
theorem newMacro_blocked_witness :
    update stRecording MacroMessage.NewMacro
      = { stRecording with showRecordingWarning := true } :=
  newMacro_blocked_while_recording stRecording rfl

/-- C10: `remove_macro` returns `None` and leaves the configuration unchanged
for every out-of-bounds index, and for an in-bounds index returns the removed
macro and shortens the list by exactly one. -/
theorem removeMacro_spec (c : MacroConfig) (index : Nat) :
    (c.macros.length ≤ index → MacroConfig.removeMacro c index = (none, c))
      ∧ (∀ h : index < c.macros.length,
          (MacroConfig.removeMacro c index).1 = some (c.macros.get ⟨index, h⟩)
            ∧ (MacroConfig.removeMacro c index).2.macros = c.macros.eraseIdx index
            ∧ (MacroConfig.removeMacro c index).2.macros.length = c.macros.length - 1) := by
  constructor
  · intro h
    unfold MacroConfig.removeMacro
    rw [dif_neg (Nat.not_lt.mpr h)]
  · intro h
    unfold MacroConfig.removeMacro
    rw [dif_pos h]
    refine ⟨rfl, rfl, ?_⟩
    simpa using List.length_eraseIdx_of_lt h

/-- C1: the dispatch loop is single-flight, and a failed execution never
leaves it stuck in the executing state: while the `executing` flag is raised,
a trigger for any registered macro changes nothing and invokes the executor
on nothing; and whenever a step did invoke the executor — whatever result,
`Ok` or `Err`, the executor returned — the step ends with `executing` back at
`false`. -/
theorem dispatch_single_flight (hotkey_map : List (Nat × String))
    (execResult : MacroDefinition → Except String Unit)
    (s : MacroAppState) (event : Option Nat) :
    (s.executing = true → dispatchStep hotkey_map execResult s event = (s, []))
      ∧ ((dispatchStep hotkey_map execResult s event).2 ≠ []
          → (dispatchStep hotkey_map execResult s event).1.executing = false) := by
  constructor
  · intro h
    cases event with
    | none => rfl
    | some id =>
        simp only [dispatchStep]
        split
        · rfl
        · split
          · next hse =>
              rw [h] at hse
              simp at hse
          · rfl
  · intro hne
    have hcases : (dispatchStep hotkey_map execResult s event).1.executing = false
        ∨ dispatchStep hotkey_map execResult s event = (s, []) := by
      cases event with
      | none => exact Or.inr rfl
      | some id =>
          simp only [dispatchStep]
          split
          · exact Or.inr rfl
          · split
            · split
              · exact Or.inl rfl
              · exact Or.inr rfl
            · exact Or.inr rfl
    rcases hcases with hc | hc
    · exact hc
    · rw [hc] at hne
      simp at hne

/-- C1 (witness): with an executor stub that always fails, a trigger arriving
while `executing` is raised changes nothing, and a trigger dispatched from
the idle state ends with `executing` cleared even though the execution
returned `Err`. -/
theorem dispatch_single_flight_witness :
    dispatchStep hmapM execFail busyState (some 1) = (busyState, [])
      ∧ (dispatchStep hmapM execFail idleState (some 1)).1.executing = false := by
  constructor
  · exact (dispatch_single_flight hmapM execFail busyState (some 1)).1 rfl
  · exact (dispatch_single_flight hmapM execFail idleState (some 1)).2 (by decide)

/-- C6 (counterexample): in a state whose selected macro has two actions and
whose selected action index is 0, the confirmed delay insertion appends the
new `Delay` at the end of the list — index 2 — instead of placing it
immediately after the selected action, at index 1. -/
theorem insert_append_cex :
    stInsert.selectedAction = some 0
      ∧ ((update stInsert MacroMessage.ConfirmInsertDelay).macros.get? 0).map
          MacroDefinition.actions
        = some [MacroAction.KeyPress "A" 0, MacroAction.KeyRelease "A" 0,
                MacroAction.Delay 100]
      ∧ [MacroAction.KeyPress "A" 0, MacroAction.KeyRelease "A" 0,
          MacroAction.Delay 100]
        ≠ [MacroAction.KeyPress "A" 0, MacroAction.Delay 100,
            MacroAction.KeyRelease "A" 0] := by
  exact ⟨rfl, by decide, by decide⟩

/-- C6 (amended): with a macro selected, inserting a mouse click via the
insert-after message places the click immediately after the selected action
index (clamped to the end) when an action is selected, else appends it;
inserting a mouse move (`ConfirmInsertXY`) or a delay (`ConfirmInsertDelay`)
always appends the new action to the end of the action list, whether or not
an action is selected. -/
theorem insert_semantics (s : MacroEditorState) (k : Nat) (m : MacroDefinition)
    (button : MouseButton) (press : Bool)
    (hk : s.selectedMacro = some k) (hm : s.macros.get? k = some m) :
    (((update s (MacroMessage.InsertMouseAfter button press)).macros.get? k).map
        MacroDefinition.actions
      = some (match s.selectedAction with
              | some i =>
                  listInsertIdx m.actions (min (i + 1) m.actions.length)
                    (MacroAction.MouseClick button press)
              | none => m.actions ++ [MacroAction.MouseClick button press]))
      ∧ (((update s MacroMessage.ConfirmInsertXY).macros.get? k).map
            MacroDefinition.actions
          = some (m.actions ++ [MacroAction.MouseMove ((parseI32 s.insertX).getD 0)
              ((parseI32 s.insertY).getD 0)]))
      ∧ (((update s MacroMessage.ConfirmInsertDelay).macros.get? k).map
            MacroDefinition.actions
          = some (m.actions ++ [MacroAction.Delay ((parseU64 s.insertDelayMs).getD 100)])) := by
  have hlt : k < s.macros.length := get?_some_lt s.macros k m hm
  refine ⟨?_, ?_, ?_⟩
  · cases ha : s.selectedAction with
    | none =>
        have hmac : (update s (MacroMessage.InsertMouseAfter button press)).macros
            = (updateCurrentMacro s (fun mm =>
                { mm with actions :=
                    mm.actions ++ [MacroAction.MouseClick button press] })).macros := by
          unfold update
          rw [ha]
        rw [hmac, updateCurrentMacro_macros s _ k m hk hm,
          get?_set_self s.macros k _ hlt]
        rfl
    | some i =>
        have hmac : (update s (MacroMessage.InsertMouseAfter button press)).macros
            = (updateCurrentMacro s (fun mm =>
                let actions1 := listInsertIdx mm.actions (min (i + 1) mm.actions.length)
                  (MacroAction.MouseClick button press)
                { mm with actions := actions1 })).macros := by
          unfold update
          rw [ha]
        rw [hmac, updateCurrentMacro_macros s _ k m hk hm,
          get?_set_self s.macros k _ hlt]
        rfl
  · have hmac : (update s MacroMessage.ConfirmInsertXY).macros
        = (updateCurrentMacro s (fun mm =>
            { mm with actions := mm.actions
                ++ [MacroAction.MouseMove ((parseI32 s.insertX).getD 0)
                      ((parseI32 s.insertY).getD 0)] })).macros := rfl
    rw [hmac, updateCurrentMacro_macros s _ k m hk hm,
      get?_set_self s.macros k _ hlt]
    rfl
  · have hmac : (update s MacroMessage.ConfirmInsertDelay).macros
        = (updateCurrentMacro s (fun mm =>
            { mm with actions := mm.actions
                ++ [MacroAction.Delay ((parseU64 s.insertDelayMs).getD 100)] })).macros := rfl
    rw [hmac, updateCurrentMacro_macros s _ k m hk hm,
      get?_set_self s.macros k _ hlt]
    rfl

/-- C6 (witness): the amended insertion semantics evaluated at a concrete
state with a two-action macro selected and its first action selected. -/
theorem insert_semantics_witness :
    (((update stInsert (MacroMessage.InsertMouseAfter MouseButton.Left true)).macros.get?
        0).map MacroDefinition.actions
      = some [MacroAction.KeyPress "A" 0, MacroAction.MouseClick MouseButton.Left true,
              MacroAction.KeyRelease "A" 0])
      ∧ (((update stInsert MacroMessage.ConfirmInsertDelay).macros.get? 0).map
            MacroDefinition.actions
          = some [MacroAction.KeyPress "A" 0, MacroAction.KeyRelease "A" 0,
                  MacroAction.Delay 100]) := by
  have h := insert_semantics stInsert 0
    ({ MacroDefinition.new "M" with
        actions := [MacroAction.KeyPress "A" 0, MacroAction.KeyRelease "A" 0] })
    MouseButton.Left true rfl rfl
  exact ⟨h.1, h.2.2⟩

/-- C7: deleting the selected action at index i of a macro with n actions
(i < n) removes exactly that action, and the new selected action index is
min(max(i-1,0), n-2); when the deleted action was the only one (n = 1), the
selection is cleared to none. -/
theorem delete_action_clamps (s : MacroEditorState) (k i : Nat)
    (m : MacroDefinition)
    (hk : s.selectedMacro = some k) (hm : s.macros.get? k = some m)
    (ha : s.selectedAction = some i) (hi : i < m.actions.length) :
    (((update s MacroMessage.DeleteAction).macros.get? k).map MacroDefinition.actions
        = some (m.actions.eraseIdx i))
      ∧ ((update s MacroMessage.DeleteAction).selectedAction
          = if m.actions.length = 1 then none
            else some (min (i - 1) (m.actions.length - 2))) := by
  have hlt : k < s.macros.length := get?_some_lt s.macros k m hm
  have hupd : update s MacroMessage.DeleteAction = deleteActionOp s := rfl
  have hlen : (m.actions.eraseIdx i).length = m.actions.length - 1 := by
    simpa using List.length_eraseIdx_of_lt hi
  have hmac : (update s MacroMessage.DeleteAction).macros
      = s.macros.set k { m with actions := m.actions.eraseIdx i } := by
    rw [hupd]
    unfold deleteActionOp
    simp only [ha, hk, hm]
    rw [if_pos hi]
  have hsel : (update s MacroMessage.DeleteAction).selectedAction
      = if (m.actions.eraseIdx i).isEmpty then none
        else some (min (i - 1) ((m.actions.eraseIdx i).length - 1)) := by
    rw [hupd]
    unfold deleteActionOp
    simp only [ha, hk, hm]
    rw [if_pos hi]
  constructor
  · rw [hmac, get?_set_self s.macros k _ hlt]
    rfl
  · rw [hsel]
    by_cases hn : m.actions.length = 1
    · have h0 : (m.actions.eraseIdx i).length = 0 := by omega
      have hnil : m.actions.eraseIdx i = [] := List.length_eq_zero.mp h0
      simp [hnil, hn]
    · have hne : ¬ (m.actions.eraseIdx i).isEmpty = true := by
        rw [List.isEmpty_iff]
        intro hcontra
        rw [hcontra] at hlen
        simp at hlen
        omega
      rw [if_neg hne, if_neg hn, hlen]
      have : m.actions.length - 1 - 1 = m.actions.length - 2 := by omega
      rw [this]

/-- C7 (witness): the clamp evaluated at a three-action macro with its middle
action selected (new selection index 0) and at a single-action macro (the
selection is cleared). -/
theorem delete_action_clamps_witness :
    (((update stDelete3 MacroMessage.DeleteAction).macros.get? 0).map
        MacroDefinition.actions
      = some [MacroAction.KeyPress "A" 0, MacroAction.KeyRelease "A" 0])
      ∧ (update stDelete3 MacroMessage.DeleteAction).selectedAction = some 0
      ∧ (update stDelete1 MacroMessage.DeleteAction).selectedAction = none := by
  have h3 := delete_action_clamps stDelete3 0 1
    ({ MacroDefinition.new "M" with
        actions := [MacroAction.KeyPress "A" 0, MacroAction.Delay 100,
                    MacroAction.KeyRelease "A" 0] })
    rfl rfl rfl (by decide)
  have h1 := delete_action_clamps stDelete1 0 0
    ({ MacroDefinition.new "M" with actions := [MacroAction.Delay 100] })
    rfl rfl rfl (by decide)
  refine ⟨h3.1, ?_, ?_⟩
  · have := h3.2
    simpa using this
  · have := h1.2
    simpa using this

/-! ## C4: the coalescing pass -/

theorem delayRunDrop_length_le (l : List MacroAction) :
    (delayRunDrop l).length ≤ l.length := by
  induction l with
  | nil => exact Nat.le_refl _
  | cons a t ih =>
      cases a with
      | Delay ms => exact Nat.le_trans ih (Nat.le_succ _)
      | KeyPress k d => exact Nat.le_refl _
      | KeyRelease k d => exact Nat.le_refl _
      | MouseClick b p => exact Nat.le_refl _
      | MouseMove x y => exact Nat.le_refl _

theorem isDelay_eq_true_iff (a : MacroAction) :
    a.isDelay = true ↔ ∃ ms, a = MacroAction.Delay ms := by
  cases a <;> simp [MacroAction.isDelay]

theorem optimizeGo_delay (pending ms : Nat) (rest : List MacroAction) :
    optimizeGo pending (MacroAction.Delay ms :: rest) = optimizeGo (pending + ms) rest :=
  rfl

theorem optimizeGo_not_delay (pending : Nat) (a : MacroAction)
    (rest : List MacroAction) (h : a.isDelay = false) :
    optimizeGo pending (a :: rest)
      = (if pending > 50 then [MacroAction.Delay pending] else [])
          ++ a :: optimizeGo 0 rest := by
  cases a with
  | Delay ms => simp [MacroAction.isDelay] at h
  | KeyPress k d => rfl
  | KeyRelease k d => rfl
  | MouseClick b p => rfl
  | MouseMove x y => rfl

theorem coalesceSpec_not_delay (a : MacroAction) (t : List MacroAction)
    (h : a.isDelay = false) :
    coalesceSpec (a :: t) = a :: coalesceSpec t := by
  cases a with
  | Delay ms => simp [MacroAction.isDelay] at h
  | KeyPress k d => simp [coalesceSpec]
  | KeyRelease k d => simp [coalesceSpec]
  | MouseClick b p => simp [coalesceSpec]
  | MouseMove x y => simp [coalesceSpec]

theorem optimizeGo_delayRun (l : List MacroAction) :
    ∀ pending, optimizeGo pending l
      = optimizeGo (pending + delayRunSum l) (delayRunDrop l) := by
  induction l with
  | nil => intro p; rfl
  | cons a rest ih =>
      intro p
      cases a with
      | Delay ms =>
          rw [optimizeGo_delay, ih]
          rw [show delayRunSum (MacroAction.Delay ms :: rest)
              = ms + delayRunSum rest from rfl]
          rw [show delayRunDrop (MacroAction.Delay ms :: rest)
              = delayRunDrop rest from rfl]
          rw [Nat.add_assoc]
      | KeyPress k d => rfl
      | KeyRelease k d => rfl
      | MouseClick b p2 => rfl
      | MouseMove x y => rfl

theorem delayRunDrop_shape (l : List MacroAction) :
    delayRunDrop l = [] ∨ ∃ a t, delayRunDrop l = a :: t ∧ a.isDelay = false := by
  induction l with
  | nil => exact Or.inl rfl
  | cons a rest ih =>
      cases a with
      | Delay ms => exact ih
      | KeyPress k d => exact Or.inr ⟨_, _, rfl, rfl⟩
      | KeyRelease k d => exact Or.inr ⟨_, _, rfl, rfl⟩
      | MouseClick b p => exact Or.inr ⟨_, _, rfl, rfl⟩
      | MouseMove x y => exact Or.inr ⟨_, _, rfl, rfl⟩

theorem optimizeGo_zero_eq_coalesceSpec :
    ∀ (n : Nat) (l : List MacroAction), l.length ≤ n
      → optimizeGo 0 l = coalesceSpec l := by
  intro n
  induction n with
  | zero =>
      intro l hl
      have hnil : l = [] := List.eq_nil_of_length_eq_zero (Nat.le_zero.mp hl)
      subst hnil
      simp [optimizeGo, coalesceSpec]
  | succ n ih =>
      intro l hl
      cases l with
      | nil => simp [optimizeGo, coalesceSpec]
      | cons a rest =>
          by_cases hD : a.isDelay = true
          · rcases (isDelay_eq_true_iff a).mp hD with ⟨ms, rfl⟩
            rw [optimizeGo_delay, Nat.zero_add, optimizeGo_delayRun rest]
            have hcs : coalesceSpec (MacroAction.Delay ms :: rest)
                = if ms + delayRunSum rest > 50
                  then MacroAction.Delay (ms + delayRunSum rest)
                      :: coalesceSpec (delayRunDrop rest)
                  else coalesceSpec (delayRunDrop rest) := by
              simp [coalesceSpec]
            rw [hcs]
            rcases delayRunDrop_shape rest with hd | ⟨b, t, hd, hb⟩
            · rw [hd]
              by_cases hP : ms + delayRunSum rest > 50
              · rw [if_pos hP]
                rw [show optimizeGo (ms + delayRunSum rest) []
                    = if ms + delayRunSum rest > 50
                      then [MacroAction.Delay (ms + delayRunSum rest)] else [] from rfl]
                rw [if_pos hP]
                simp [coalesceSpec]
              · rw [if_neg hP]
                rw [show optimizeGo (ms + delayRunSum rest) []
                    = if ms + delayRunSum rest > 50
                      then [MacroAction.Delay (ms + delayRunSum rest)] else [] from rfl]
                rw [if_neg hP]
                simp [coalesceSpec]
            · rw [hd, optimizeGo_not_delay _ b t hb, coalesceSpec_not_delay b t hb]
              have ht : optimizeGo 0 t = coalesceSpec t := by
                apply ih
                have h1 : (delayRunDrop rest).length ≤ rest.length :=
                  delayRunDrop_length_le rest
                rw [hd] at h1
                simp only [List.length_cons] at h1 hl
                omega
              rw [ht]
              by_cases hP : ms + delayRunSum rest > 50
              · rw [if_pos hP, if_pos hP]
                rfl
              · rw [if_neg hP, if_neg hP]
                rfl
          · have hD' : a.isDelay = false := by simpa using hD
            rw [optimizeGo_not_delay _ _ _ hD', coalesceSpec_not_delay _ _ hD']
            have ht : optimizeGo 0 rest = coalesceSpec rest := by
              apply ih
              simp only [List.length_cons] at hl
              omega
            rw [ht]
            simp

theorem optimize_actions_eq_coalesceSpec (l : List MacroAction) :
    optimize_actions l = coalesceSpec l :=
  optimizeGo_zero_eq_coalesceSpec l.length l (Nat.le_refl _)

theorem noTwoDelays_cons (a : MacroAction) (t : List MacroAction)
    (h : a.isDelay = false) :
    noTwoDelays (a :: t) = noTwoDelays t := by
  cases t with
  | nil => rfl
  | cons b t2 =>
      rw [show noTwoDelays (a :: b :: t2)
          = ((!(a.isDelay && b.isDelay)) && noTwoDelays (b :: t2)) from rfl]
      rw [h]
      simp

theorem optimizeGo_noTwoDelays (l : List MacroAction) :
    ∀ pending, noTwoDelays (optimizeGo pending l) = true := by
  induction l with
  | nil =>
      intro p
      unfold optimizeGo
      split <;> rfl
  | cons a rest ih =>
      intro p
      by_cases hD : a.isDelay = true
      · rcases (isDelay_eq_true_iff a).mp hD with ⟨ms, rfl⟩
        rw [optimizeGo_delay]
        exact ih _
      · have hD' : a.isDelay = false := by simpa using hD
        rw [optimizeGo_not_delay _ _ _ hD']
        by_cases hp : p > 50
        · rw [if_pos hp]
          show noTwoDelays (MacroAction.Delay p :: a :: optimizeGo 0 rest) = true
          rw [show noTwoDelays (MacroAction.Delay p :: a :: optimizeGo 0 rest)
              = ((!((MacroAction.Delay p).isDelay && a.isDelay))
                  && noTwoDelays (a :: optimizeGo 0 rest)) from rfl]
          rw [hD', noTwoDelays_cons a _ hD']
          simp [MacroAction.isDelay, ih 0]
        · rw [if_neg hp]
          show noTwoDelays (a :: optimizeGo 0 rest) = true
          rw [noTwoDelays_cons a _ hD']
          exact ih 0

theorem delayOver50_of_not_delay (a : MacroAction) (h : a.isDelay = false) :
    delayOver50 a = true := by
  cases a <;> simp_all [MacroAction.isDelay, delayOver50]

theorem optimizeGo_all_delayOver50 (l : List MacroAction) :
    ∀ pending, (optimizeGo pending l).all delayOver50 = true := by
  induction l with
  | nil =>
      intro p
      unfold optimizeGo
      split
      · next hp => simp [delayOver50, hp]
      · rfl
  | cons a rest ih =>
      intro p
      by_cases hD : a.isDelay = true
      · rcases (isDelay_eq_true_iff a).mp hD with ⟨ms, rfl⟩
        rw [optimizeGo_delay]
        exact ih _
      · have hD' : a.isDelay = false := by simpa using hD
        rw [optimizeGo_not_delay _ _ _ hD']
        have ha := delayOver50_of_not_delay a hD'
        have hdp : ∀ q : Nat, q > 50 → delayOver50 (MacroAction.Delay q) = true := by
          intro q hq
          simp [delayOver50, hq]
        by_cases hp : p > 50
        · rw [if_pos hp]
          simp [hdp p hp, ha, ih 0]
        · rw [if_neg hp]
          simp [ha, ih 0]

theorem optimizeGo_filter (l : List MacroAction) :
    ∀ pending, (optimizeGo pending l).filter (fun a => !a.isDelay)
      = l.filter (fun a => !a.isDelay) := by
  induction l with
  | nil =>
      intro p
      unfold optimizeGo
      split
      · simp [MacroAction.isDelay]
      · rfl
  | cons a rest ih =>
      intro p
      by_cases hD : a.isDelay = true
      · rcases (isDelay_eq_true_iff a).mp hD with ⟨ms, rfl⟩
        rw [optimizeGo_delay, ih _]
        simp [MacroAction.isDelay]
      · have hD' : a.isDelay = false := by simpa using hD
        rw [optimizeGo_not_delay _ _ _ hD']
        by_cases hp : p > 50
        · rw [if_pos hp]
          have hdp : (MacroAction.Delay p).isDelay = true := rfl
          simp [List.filter_cons, hdp, hD', ih 0]
        · rw [if_neg hp]
          simp [List.filter_cons, hD', ih 0]

/-- C4: the coalescing pass run by `stop()` equals the specification's
description — consecutive `Delay` actions are summed into one and a summed
delay of at most 50ms is dropped entirely (`coalesceSpec`); every `Delay` it
emits is above 50ms; no two `Delay` actions are ever adjacent in its output;
and the non-`Delay` actions come out exactly as they went in, in their
original relative order. -/
theorem optimize_actions_spec (acts : List MacroAction) :
    optimize_actions acts = coalesceSpec acts
      ∧ noTwoDelays (optimize_actions acts) = true
      ∧ (optimize_actions acts).all delayOver50 = true
      ∧ (optimize_actions acts).filter (fun a => !a.isDelay)
          = acts.filter (fun a => !a.isDelay) :=
  ⟨optimize_actions_eq_coalesceSpec acts, optimizeGo_noTwoDelays acts 0,
   optimizeGo_all_delayOver50 acts 0, optimizeGo_filter acts 0⟩

end EdgeOptimizer
